import Mathlib

/-!
Verification of the downloader peer-set subsystem
(`ctxc/downloader/peer.go` of CortexTheseus).

The Go source is shallowly embedded: every pure computation becomes a Lean
function over explicit state; machine times (`time.Time`, `time.Duration`)
become `Int` nanosecond counts; `common.Hash` values become `Nat` (only
equality of hashes is ever used); Go maps become association lists whose
order stands for the (unspecified) traversal order; fallible operations
return sum types.  The call to `sort.Sort` is embedded by its documented
contract (the result is a permutation ordered by `Less`; stability is not
guaranteed) as a relation between input and permissible outputs.
-/

namespace CortexDownloader

/-- Constant `maxLackingHashes` from `ctxc/downloader/peer.go`: maximum number of
entries allowed on the list of lacking items. -/
def maxLackingHashes : Nat := 4096

/-- One second in nanoseconds (`time.Second`). -/
def oneSecond : Int := 1000000000

/-- Modelled from the spec: the four independently scheduled data-kinds
(headers, bodies, receipts, state-data) are identified by distinct protocol
message codes (`ctxc.BlockHeadersMsg` …); the protocol constants file is not
part of the sources, and only the distinctness of the codes matters here.
The numeric values mirror the wire protocol. -/
def BlockHeadersMsg : Nat := 0x04

/-- Modelled from the spec: message code of the bodies data-kind. -/
def BlockBodiesMsg : Nat := 0x06

/-- Modelled from the spec: message code of the state-data kind. -/
def NodeDataMsg : Nat := 0x0e

/-- Modelled from the spec: message code of the receipts data-kind. -/
def ReceiptsMsg : Nat := 0x10

/-- Modelled from the spec: the Rate Tracker (`p2p/msgrate.Tracker`, not in
the sources; the spec describes it as "record an observed delivery (kind,
elapsed time, item count); estimate capacity (kind, target round-trip
time)").  The estimator statistics are abstracted: `updates` is the log of
recorded deliveries, newest first, and `est` carries an abstract per-kind
capacity estimate (the association list is keyed by message code). -/
structure Tracker where
  updates : List (Nat × Int × Nat) := []
  est : List (Nat × Int) := []
  rtt : Int := 0
  deriving DecidableEq, Repr

/-- Modelled from the spec: recording an observed delivery appends the
(kind, elapsed time, item count) observation to the tracker history. -/
def Tracker.Update (t : Tracker) (kind : Nat) (elapsed : Int) (items : Nat) : Tracker :=
  { t with updates := (kind, elapsed, items) :: t.updates }

/-- Modelled from the spec: the estimated number of items of kind `kind`
deliverable within the target round-trip time, read off the abstract
per-kind estimate (missing kinds estimate 0). -/
def Tracker.Capacity (t : Tracker) (kind : Nat) (_targetRTT : Int) : Int :=
  (((t.est.find? (fun kv => kv.1 == kind)).map (fun kv => kv.2)).getD 0)

/-- Modelled from the spec: `msgrate.NewTracker` seeds a fresh tracker with
the given per-kind capacities and round-trip estimate. -/
def NewTracker (caps : List (Nat × Int)) (rtt : Int) : Tracker :=
  { updates := [], est := caps, rtt := rtt }

/-- Structure `peerConnection` from `ctxc/downloader/peer.go`: the scheduling
state of one active peer.  The four `*Idle` atomics are booleans (`false` = idle,
`true` = active), the `*Started` fields are the start instants of the last
fetch of each kind, `rates` is the rate tracker of the peer, `lacking` the
bounded negative cache (a set, represented as a duplicate-free list whose
order stands for map traversal order), and `version` the negotiated
protocol version. -/
structure PeerConnection where
  id : String
  headerIdle : Bool := false
  blockIdle : Bool := false
  receiptIdle : Bool := false
  stateIdle : Bool := false
  headerStarted : Int := 0
  blockStarted : Int := 0
  receiptStarted : Int := 0
  stateStarted : Int := 0
  rates : Tracker := {}
  lacking : List Nat := []
  version : Nat
  deriving DecidableEq, Repr

/-- Outcome of a Fetch call: `panicked` models the Go `panic` (loud abort),
`alreadyFetching` the `errAlreadyFetching` return, `ok` the `nil` return. -/
inductive FetchOutcome where
  | panicked (msg : String)
  | alreadyFetching
  | ok
  deriving DecidableEq, Repr

/-- The request forwarded to the remote peer capability (the `go p.peer.…`
dispatch); `none` means no request was forwarded. -/
inductive RemoteRequest where
  | headersByNumber (origin : Nat) (amount : Nat) (skip : Nat) (reverse : Bool)
  | bodies (hashes : List Nat)
  | receipts (hashes : List Nat)
  | nodeData (hashes : List Nat)
  deriving DecidableEq, Repr

/-- Operation `peerConnection.Reset`: clears the four idle flags and empties the
lacking set. -/
def PeerConnection.Reset (p : PeerConnection) : PeerConnection :=
  { p with headerIdle := false, blockIdle := false, receiptIdle := false,
           stateIdle := false, lacking := [] }

/-- Operation `peerConnection.FetchHeaders`: panics below ctxc/62, returns
`errAlreadyFetching` if the header flag is already set (the failed
compare-and-swap), otherwise sets the flag, records the start time and
forwards a headers-by-number request.  `now` is the ambient clock value
(`time.Now()`). -/
def PeerConnection.FetchHeaders (p : PeerConnection) (now : Int) (origin : Nat)
    (count : Nat) : FetchOutcome × PeerConnection × Option RemoteRequest :=
  if p.version < 62 then
    (.panicked ("header fetch [ctxc/62+] requested on ctxc/" ++ toString p.version), p, none)
  else if p.headerIdle then
    (.alreadyFetching, p, none)
  else
    (.ok, { p with headerIdle := true, headerStarted := now },
     some (.headersByNumber origin count 0 false))

/-- Operation `peerConnection.FetchBodies`: the body-kind fetch; the headers of the request
are identified by their hashes. -/
def PeerConnection.FetchBodies (p : PeerConnection) (now : Int)
    (headerHashes : List Nat) : FetchOutcome × PeerConnection × Option RemoteRequest :=
  if p.version < 62 then
    (.panicked ("body fetch [ctxc/62+] requested on ctxc/" ++ toString p.version), p, none)
  else if p.blockIdle then
    (.alreadyFetching, p, none)
  else
    (.ok, { p with blockIdle := true, blockStarted := now },
     some (.bodies headerHashes))

/-- Operation `peerConnection.FetchReceipts`: the receipt-kind fetch (version floor
ctxc/63). -/
def PeerConnection.FetchReceipts (p : PeerConnection) (now : Int)
    (headerHashes : List Nat) : FetchOutcome × PeerConnection × Option RemoteRequest :=
  if p.version < 63 then
    (.panicked ("body fetch [ctxc/63+] requested on ctxc/" ++ toString p.version), p, none)
  else if p.receiptIdle then
    (.alreadyFetching, p, none)
  else
    (.ok, { p with receiptIdle := true, receiptStarted := now },
     some (.receipts headerHashes))

/-- Operation `peerConnection.FetchNodeData`: the state-data fetch (version floor
ctxc/63). -/
def PeerConnection.FetchNodeData (p : PeerConnection) (now : Int)
    (hashes : List Nat) : FetchOutcome × PeerConnection × Option RemoteRequest :=
  if p.version < 63 then
    (.panicked ("node data fetch [ctxc/63+] requested on ctxc/" ++ toString p.version), p, none)
  else if p.stateIdle then
    (.alreadyFetching, p, none)
  else
    (.ok, { p with stateIdle := true, stateStarted := now },
     some (.nodeData hashes))

/-- Operation `peerConnection.SetHeadersIdle`: records the delivery into the rate
tracker (elapsed = `deliveryTime - headerStarted`) and clears the header
flag. -/
def PeerConnection.SetHeadersIdle (p : PeerConnection) (delivered : Nat)
    (deliveryTime : Int) : PeerConnection :=
  { p with rates := p.rates.Update BlockHeadersMsg (deliveryTime - p.headerStarted) delivered,
           headerIdle := false }

/-- Operation `peerConnection.SetBodiesIdle`. -/
def PeerConnection.SetBodiesIdle (p : PeerConnection) (delivered : Nat)
    (deliveryTime : Int) : PeerConnection :=
  { p with rates := p.rates.Update BlockBodiesMsg (deliveryTime - p.blockStarted) delivered,
           blockIdle := false }

/-- Operation `peerConnection.SetReceiptsIdle`. -/
def PeerConnection.SetReceiptsIdle (p : PeerConnection) (delivered : Nat)
    (deliveryTime : Int) : PeerConnection :=
  { p with rates := p.rates.Update ReceiptsMsg (deliveryTime - p.receiptStarted) delivered,
           receiptIdle := false }

/-- Operation `peerConnection.SetNodeDataIdle`. -/
def PeerConnection.SetNodeDataIdle (p : PeerConnection) (delivered : Nat)
    (deliveryTime : Int) : PeerConnection :=
  { p with rates := p.rates.Update NodeDataMsg (deliveryTime - p.stateStarted) delivered,
           stateIdle := false }

/-- The eviction loop of `MarkLacking` (`for len(p.lacking) >=
maxLackingHashes { delete one; }`): drops the first-traversed entry while
the set is at or above capacity. -/
def dropOneWhileFull : List Nat → List Nat
  | [] => []
  | h :: t =>
      if maxLackingHashes ≤ (h :: t).length then dropOneWhileFull t else h :: t

/-- Operation `peerConnection.MarkLacking`: evicts entries while at capacity, then
inserts the hash (map insertion: a no-op when already present). -/
def PeerConnection.MarkLacking (p : PeerConnection) (hash : Nat) : PeerConnection :=
  let l := dropOneWhileFull p.lacking
  { p with lacking := if hash ∈ l then l else hash :: l }

/-- Operation `peerConnection.Lacks`: membership test on the lacking set. -/
def PeerConnection.Lacks (p : PeerConnection) (hash : Nat) : Bool :=
  p.lacking.contains hash

/-- Structure `peerSet` from `ctxc/downloader/peer.go`: the map of active peers
(association list keyed by session id; list order stands for map traversal
order) together with the aggregate tracker collection (`msgrate.Trackers`,
the same id space). The event feeds carry no retrievable state and are
represented by the published event values the operations return. -/
structure PeerSet where
  peers : List (String × PeerConnection) := []
  rates : List (String × Tracker) := []
  deriving DecidableEq, Repr

/-- Constructor `newPeerSet`: the empty registry. -/
def newPeerSet : PeerSet := {}

/-- Average of a list of integers, zero when empty (part of the modelled
aggregate tracker, see `MeanCapacities`). -/
def listAvg (xs : List Int) : Int :=
  if xs.length = 0 then 0 else xs.foldl (· + ·) 0 / xs.length

/-- Modelled from the spec: `msgrate.Trackers.MeanCapacities` — "mean
capacity … across all tracked peers", per data-kind, used only to seed
newcomers. -/
def MeanCapacities (ts : List (String × Tracker)) : List (Nat × Int) :=
  [BlockHeadersMsg, BlockBodiesMsg, ReceiptsMsg, NodeDataMsg].map
    (fun k => (k, listAvg (ts.map (fun st => st.2.Capacity k oneSecond))))

/-- Modelled from the spec: `msgrate.Trackers.MedianRoundTrip` — "median
round-trip across all tracked peers" (median of the abstract per-tracker
round-trip estimates; zero when no peer is tracked). -/
def MedianRoundTrip (ts : List (String × Tracker)) : Int :=
  let sorted := (ts.map (fun st => st.2.rtt)).mergeSort (fun a b => a ≤ b)
  (sorted.get? (sorted.length / 2)).getD 0

/-- Modelled from the spec: `msgrate.Trackers.Track` registers a tracker
under an id, failing when the id is already tracked. -/
def Track (ts : List (String × Tracker)) (id : String) (t : Tracker) :
    Option (List (String × Tracker)) :=
  if (ts.find? (fun st => st.1 == id)).isSome then none
  else some (ts ++ [(id, t)])

/-- Modelled from the spec: `msgrate.Trackers.Untrack` removes the tracker
registered under an id. -/
def Untrack (ts : List (String × Tracker)) (id : String) : List (String × Tracker) :=
  ts.filter (fun st => st.1 != id)

/-- Result of `peerSet.Register`: `alreadyRegistered` models the
`errAlreadyRegistered` return (registry and session untouched),
`trackFailed` the error return of `Trackers.Track` (registry untouched but
the tracker handle of the session already replaced, as in the Go code), and
`registered` the success, carrying the new registry state and the session
as published on the peer-joined feed. -/
inductive RegResult where
  | alreadyRegistered
  | trackFailed (p' : PeerConnection)
  | registered (ps' : PeerSet) (joined : PeerConnection)
  deriving DecidableEq, Repr

/-- Operation `peerSet.Register`: rejects duplicate ids; otherwise seeds the
tracker of the session from the aggregate statistics, registers the tracker and
inserts the session, publishing the session on the peer-joined feed. -/
def PeerSet.Register (ps : PeerSet) (p : PeerConnection) : RegResult :=
  if (ps.peers.find? (fun q => q.1 == p.id)).isSome then
    .alreadyRegistered
  else
    let tr := NewTracker (MeanCapacities ps.rates) (MedianRoundTrip ps.rates)
    let p' := { p with rates := tr }
    match Track ps.rates p.id tr with
    | none => .trackFailed p'
    | some ts => .registered { peers := ps.peers ++ [(p.id, p')], rates := ts } p'

/-- Operation `peerSet.Unregister`: removes the session and its tracker, publishing
the removed session on the peer-drop feed; `none` models the
`errNotRegistered` return (registry untouched). -/
def PeerSet.Unregister (ps : PeerSet) (id : String) : Option (PeerSet × PeerConnection) :=
  match ps.peers.find? (fun q => q.1 == id) with
  | none => none
  | some q =>
      some ({ peers := ps.peers.filter (fun r => r.1 != id),
              rates := Untrack ps.rates id }, q.2)

/-- Operation `peerSet.Peer`: looks up the session registered under `id`; `none`
models the `nil` map read for an absent id. -/
def PeerSet.Peer (ps : PeerSet) (id : String) : Option PeerConnection :=
  (ps.peers.find? (fun q => q.1 == id)).map (fun q => q.2)

/-- Operation `peerSet.Len`. -/
def PeerSet.Len (ps : PeerSet) : Nat := ps.peers.length

/-- Operation `peerSet.AllPeers`. -/
def PeerSet.AllPeers (ps : PeerSet) : List PeerConnection :=
  ps.peers.map (fun q => q.2)

/-- Operation `peerSet.Reset`: resets every registered session. -/
def PeerSet.ResetAll (ps : PeerSet) : PeerSet :=
  { ps with peers := ps.peers.map (fun q => (q.1, q.2.Reset)) }

/-- The accumulation loop of `peerSet.idlePeers`: one traversal collecting,
in traversal order, the version-eligible idle peers paired with their
capacity estimate, and counting every version-eligible peer. -/
def idlePeersScan (peers : List (String × PeerConnection)) (minProtocol maxProtocol : Nat)
    (idleCheck : PeerConnection → Bool) (capacity : PeerConnection → Int) :
    List (PeerConnection × Int) × Nat :=
  match peers with
  | [] => ([], 0)
  | (_, p) :: rest =>
      let (l, t) := idlePeersScan rest minProtocol maxProtocol idleCheck capacity
      if minProtocol ≤ p.version ∧ p.version ≤ maxProtocol then
        if idleCheck p then ((p, capacity p) :: l, t + 1) else (l, t + 1)
      else (l, t)

/-- The contract of `sort.Sort` on `peerCapacitySort` (`Less i j ↔ tp i >
tp j`): the output is a permutation of the input in which no element is
followed by one of strictly greater capacity — i.e. weakly descending by
the captured capacity value.  the Go `sort.Sort` guarantees nothing further
(in particular no stability), so the embedding is this relation between
the scanned candidates and the permissible outputs. -/
def SortSortDesc (input output : List (PeerConnection × Int)) : Prop :=
  input.Perm output ∧ output.Sorted (fun a b => b.2 ≤ a.2)

/-- Relation for `peerSet.idlePeers`, between the registry state and the
permissible results `(sorted idle peers, eligible total)`: the scan of the
traversal followed by the `sort.Sort` call on the parallel peer/capacity
slices. -/
def IdlePeersSpec (ps : PeerSet) (minProtocol maxProtocol : Nat)
    (idleCheck : PeerConnection → Bool) (capacity : PeerConnection → Int)
    (out : List PeerConnection) (total : Nat) : Prop :=
  ∃ sortedPairs,
    SortSortDesc (idlePeersScan ps.peers minProtocol maxProtocol idleCheck capacity).1
      sortedPairs ∧
    out = sortedPairs.map (fun q => q.1) ∧
    total = (idlePeersScan ps.peers minProtocol maxProtocol idleCheck capacity).2

/-- The idleness test of `peerSet.HeaderIdlePeers`. -/
def headerIdleCheck (p : PeerConnection) : Bool := !p.headerIdle

/-- The capacity estimate of `peerSet.HeaderIdlePeers`:
`rates.Capacity(BlockHeadersMsg, time.Second)`. -/
def headerThroughput (p : PeerConnection) : Int :=
  p.rates.Capacity BlockHeadersMsg oneSecond

/-- Result relation of `peerSet.HeaderIdlePeers`. -/
def HeaderIdlePeersSpec (ps : PeerSet) (out : List PeerConnection) (total : Nat) : Prop :=
  IdlePeersSpec ps 63 65 headerIdleCheck headerThroughput out total

/-- The idleness test of `peerSet.BodyIdlePeers`. -/
def bodyIdleCheck (p : PeerConnection) : Bool := !p.blockIdle

/-- The capacity estimate of `peerSet.BodyIdlePeers`:
`rates.Capacity(BlockBodiesMsg, time.Second)`. -/
def bodyThroughput (p : PeerConnection) : Int :=
  p.rates.Capacity BlockBodiesMsg oneSecond

/-- Result relation of `peerSet.BodyIdlePeers`. -/
def BodyIdlePeersSpec (ps : PeerSet) (out : List PeerConnection) (total : Nat) : Prop :=
  IdlePeersSpec ps 63 65 bodyIdleCheck bodyThroughput out total

/-- The idleness test of `peerSet.ReceiptIdlePeers`. -/
def receiptIdleCheck (p : PeerConnection) : Bool := !p.receiptIdle

/-- The capacity estimate of `peerSet.ReceiptIdlePeers` as written in the
source: `rates.Capacity(NodeDataMsg, time.Second)` — the node-data message
code, not the receipts one. -/
def receiptThroughput (p : PeerConnection) : Int :=
  p.rates.Capacity NodeDataMsg oneSecond

/-- Result relation of `peerSet.ReceiptIdlePeers`. -/
def ReceiptIdlePeersSpec (ps : PeerSet) (out : List PeerConnection) (total : Nat) : Prop :=
  IdlePeersSpec ps 63 65 receiptIdleCheck receiptThroughput out total

/-- The idleness test of `peerSet.NodeDataIdlePeers`. -/
def nodeDataIdleCheck (p : PeerConnection) : Bool := !p.stateIdle

/-- The capacity estimate of `peerSet.NodeDataIdlePeers`:
`rates.Capacity(NodeDataMsg, time.Second)`. -/
def nodeDataThroughput (p : PeerConnection) : Int :=
  p.rates.Capacity NodeDataMsg oneSecond

/-- Result relation of `peerSet.NodeDataIdlePeers`. -/
def NodeDataIdlePeersSpec (ps : PeerSet) (out : List PeerConnection) (total : Nat) : Prop :=
  IdlePeersSpec ps 63 65 nodeDataIdleCheck nodeDataThroughput out total

/-- Claim-side definition (from the words of the spec, for comparison with
the embedded sort): a single stable descending insertion step — the element
being inserted precedes every later-traversed element of less-or-equal
capacity, so elements of equal capacity keep their traversal order. -/
def insertDescStable (x : PeerConnection × Int) :
    List (PeerConnection × Int) → List (PeerConnection × Int)
  | [] => [x]
  | y :: t => if y.2 ≤ x.2 then x :: y :: t else y :: insertDescStable x t

/-- Claim-side definition: the stable descending sort by capacity, i.e. the
reading of the claim in which "candidates with equal capacity keep the
relative order in which the traversal produced them". -/
def stableDescSort : List (PeerConnection × Int) → List (PeerConnection × Int)
  | [] => []
  | x :: t => insertDescStable x (stableDescSort t)

/-! ### Helper lemmas -/

/-- The eviction loop leaves `min (length) (cap - 1)` entries. -/
theorem dropOneWhileFull_length (l : List Nat) :
    (dropOneWhileFull l).length = min l.length (maxLackingHashes - 1) := by
  induction l with
  | nil => simp [dropOneWhileFull, maxLackingHashes]
  | cons h t ih =>
      by_cases hc : maxLackingHashes ≤ (h :: t).length
      · rw [dropOneWhileFull, if_pos hc, ih]
        simp only [List.length_cons, maxLackingHashes] at hc ⊢
        omega
      · rw [dropOneWhileFull, if_neg hc]
        simp only [List.length_cons, maxLackingHashes] at hc ⊢
        omega

/-- Below capacity, the eviction loop is the identity. -/
theorem dropOneWhileFull_eq_of_lt (l : List Nat)
    (h : l.length < maxLackingHashes) : dropOneWhileFull l = l := by
  cases l with
  | nil => rfl
  | cons a t => rw [dropOneWhileFull, if_neg (by omega)]

/-- The eviction loop only removes entries. -/
theorem dropOneWhileFull_sublist (l : List Nat) : (dropOneWhileFull l).Sublist l := by
  induction l with
  | nil => simp [dropOneWhileFull]
  | cons h t ih =>
      by_cases hc : maxLackingHashes ≤ (h :: t).length
      · rw [dropOneWhileFull, if_pos hc]
        exact ih.trans (List.sublist_cons_self h t)
      · rw [dropOneWhileFull, if_neg hc]

/-- A single `MarkLacking` call leaves at most `maxLackingHashes` entries,
whatever the starting state. -/
theorem markLacking_length_le (p : PeerConnection) (h : Nat) :
    ((p.MarkLacking h).lacking.length ≤ maxLackingHashes) := by
  have hd := dropOneWhileFull_length p.lacking
  simp only [PeerConnection.MarkLacking]
  by_cases hm : h ∈ dropOneWhileFull p.lacking
  · rw [if_pos hm]
    simp only [maxLackingHashes] at hd ⊢
    omega
  · rw [if_neg hm]
    simp only [List.length_cons, maxLackingHashes] at hd ⊢
    omega

/-- Lemma: `find?` on an association list succeeds exactly when the key occurs. -/
theorem find?_isSome_iff_mem_keys {β : Type} (l : List (String × β)) (id : String) :
    (l.find? (fun q => q.1 == id)).isSome ↔ id ∈ l.map Prod.fst := by
  induction l with
  | nil => simp
  | cons a t ih =>
      by_cases ha : a.1 = id
      · rw [List.find?_cons_of_pos _ (by simpa using ha)]
        simp [ha]
      · rw [List.find?_cons_of_neg _ (by simpa using ha)]
        simp only [List.map_cons, List.mem_cons, ih]
        constructor
        · intro hmem
          exact Or.inr hmem
        · intro hmem
          rcases hmem with hmem | hmem
          · exact absurd hmem.symm ha
          · exact hmem

/-- With duplicate-free keys, `find?` returns exactly the occurrences. -/
theorem find?_eq_some_iff_mem {β : Type} (l : List (String × β))
    (hnd : (l.map Prod.fst).Nodup) (id : String) (b : β) :
    l.find? (fun q => q.1 == id) = some (id, b) ↔ (id, b) ∈ l := by
  induction l with
  | nil => simp
  | cons a t ih =>
      rw [List.map_cons, List.nodup_cons] at hnd
      by_cases ha : a.1 = id
      · rw [List.find?_cons_of_pos _ (by simpa using ha)]
        constructor
        · intro he
          rw [Option.some_inj] at he
          rw [← he]
          exact List.mem_cons_self a t
        · intro hm
          rcases List.mem_cons.mp hm with hm | hm
          · rw [hm]
          · exfalso
            exact hnd.1 (ha ▸ (List.mem_map_of_mem Prod.fst hm))
      · rw [List.find?_cons_of_neg _ (by simpa using ha)]
        rw [ih hnd.2]
        constructor
        · intro hm
          exact List.mem_cons_of_mem a hm
        · intro hm
          rcases List.mem_cons.mp hm with hm | hm
          · exact absurd (congrArg Prod.fst hm.symm) ha
          · exact hm

/-- Lemma: `find?` skips a prefix in which it finds nothing. -/
theorem find?_append_of_none {β : Type} (l1 l2 : List β) (pred : β → Bool)
    (h : l1.find? pred = none) : (l1 ++ l2).find? pred = l2.find? pred := by
  induction l1 with
  | nil => simp
  | cons a t ih =>
      by_cases ha : pred a = true
      · rw [List.find?_cons_of_pos _ ha] at h
        exact absurd h (by simp)
      · rw [List.find?_cons_of_neg _ (by simpa using ha)] at h
        rw [List.cons_append, List.find?_cons_of_neg _ (by simpa using ha)]
        exact ih h

/-- A match in the prefix is the match of the whole
concatenation. -/
theorem find?_append_some {β : Type} (l1 l2 : List β) (pred : β → Bool) (b : β)
    (h : l1.find? pred = some b) : (l1 ++ l2).find? pred = some b := by
  induction l1 with
  | nil => simp at h
  | cons a t ih =>
      by_cases ha : pred a = true
      · rw [List.find?_cons_of_pos _ ha] at h
        rw [List.cons_append, List.find?_cons_of_pos _ ha]
        exact h
      · rw [List.find?_cons_of_neg _ (by simpa using ha)] at h
        rw [List.cons_append, List.find?_cons_of_neg _ (by simpa using ha)]
        exact ih h

/-- Filtering away only elements the predicate rejects does not change the
first match. -/
theorem find?_filter_of_imp {β : Type} (l : List β) (pred keep : β → Bool)
    (himp : ∀ x, pred x = true → keep x = true) :
    (l.filter keep).find? pred = l.find? pred := by
  induction l with
  | nil => simp
  | cons a t ih =>
      by_cases hk : keep a = true
      · rw [List.filter_cons_of_pos hk]
        by_cases hp : pred a = true
        · rw [List.find?_cons_of_pos _ hp, List.find?_cons_of_pos _ hp]
        · rw [List.find?_cons_of_neg _ (by simpa using hp),
              List.find?_cons_of_neg _ (by simpa using hp)]
          exact ih
      · have hp : ¬ pred a = true := fun hpa => hk (himp a hpa)
        rw [List.filter_cons_of_neg (by simpa using hk),
            List.find?_cons_of_neg _ (by simpa using hp)]
        exact ih

/-- Two weakly-descending arrangements of the same elements coincide when
their keys are pairwise distinct. -/
theorem sorted_desc_perm_eq {α : Type} (key : α → Int) (l1 : List α) :
    ∀ l2 : List α, l1.Perm l2 →
      l1.Sorted (fun a b => key b ≤ key a) →
      l2.Sorted (fun a b => key b ≤ key a) →
      (l1.map key).Nodup → l1 = l2 := by
  induction l1 with
  | nil =>
      intro l2 hp _ _ _
      exact hp.nil_eq
  | cons a t1 ih =>
      intro l2 hp hs1 hs2 hnd
      cases l2 with
      | nil => exact absurd hp.symm.nil_eq (by simp)
      | cons b t2 =>
          rw [List.map_cons, List.nodup_cons] at hnd
          by_cases hab : a = b
          · subst hab
            have hpt : t1.Perm t2 := hp.cons_inv
            rw [ih t2 hpt hs1.of_cons hs2.of_cons hnd.2]
          · exfalso
            have ha2 : a ∈ t2 := by
              rcases List.mem_cons.mp (hp.mem_iff.mp (List.mem_cons_self a t1)) with h | h
              · exact absurd h hab
              · exact h
            have hb1 : b ∈ t1 := by
              rcases List.mem_cons.mp (hp.mem_iff.mpr (List.mem_cons_self b t2)) with h | h
              · exact absurd h.symm hab
              · exact h
            have h1 : key b ≤ key a := (List.sorted_cons.mp hs1).1 b hb1
            have h2 : key a ≤ key b := (List.sorted_cons.mp hs2).1 a ha2
            exact hnd.1 ((le_antisymm h2 h1) ▸ (List.mem_map_of_mem key hb1))

/-- The scan of `idlePeers` is the filtered traversal paired with the
capacity estimates, together with the count of the version-eligible
traversal. -/
theorem idlePeersScan_eq (peers : List (String × PeerConnection)) (minP maxP : Nat)
    (chk : PeerConnection → Bool) (cap : PeerConnection → Int) :
    idlePeersScan peers minP maxP chk cap =
      (((peers.map Prod.snd).filter
          (fun p => decide (minP ≤ p.version) && decide (p.version ≤ maxP) && chk p)).map
          (fun p => (p, cap p)),
       ((peers.map Prod.snd).filter
          (fun p => decide (minP ≤ p.version) && decide (p.version ≤ maxP))).length) := by
  induction peers with
  | nil => rfl
  | cons q rest ih =>
      rw [idlePeersScan, ih]
      by_cases h1 : minP ≤ q.2.version ∧ q.2.version ≤ maxP
      · by_cases h2 : chk q.2 = true
        · simp [h1.1, h1.2, h2]
        · simp [h1.1, h1.2, h2]
      · rcases Decidable.not_and_iff_or_not.mp h1 with h | h
        · simp [h1, h]
        · simp [h1, h]

/-- Every pair the scan produces carries the capacity of its peer. -/
theorem idlePeersScan_snd (peers : List (String × PeerConnection)) (minP maxP : Nat)
    (chk : PeerConnection → Bool) (cap : PeerConnection → Int)
    (q : PeerConnection × Int)
    (hq : q ∈ (idlePeersScan peers minP maxP chk cap).1) : q.2 = cap q.1 := by
  rw [idlePeersScan_eq] at hq
  obtain ⟨p, _, rfl⟩ := List.mem_map.mp hq
  rfl

/-- Inversion of a successful `Register`: the id was absent from both
collections, and session and tracker were appended. -/
theorem Register_registered_inv (ps : PeerSet) (p : PeerConnection) (ps' : PeerSet)
    (joined : PeerConnection) (hreg : ps.Register p = .registered ps' joined) :
    ps.peers.find? (fun q => q.1 == p.id) = none ∧
    ps.rates.find? (fun q => q.1 == p.id) = none ∧
    joined = { p with
      rates := NewTracker (MeanCapacities ps.rates) (MedianRoundTrip ps.rates) } ∧
    ps' = { peers := ps.peers ++ [(p.id, joined)],
            rates := ps.rates ++ [(p.id, joined.rates)] } := by
  rw [PeerSet.Register] at hreg
  by_cases hfind : (ps.peers.find? (fun q => q.1 == p.id)).isSome
  · rw [if_pos hfind] at hreg
    exact absurd hreg (by simp)
  · rw [if_neg hfind] at hreg
    simp only [Track] at hreg
    by_cases htr : (ps.rates.find? (fun q => q.1 == p.id)).isSome
    · rw [if_pos htr] at hreg
      exact absurd hreg (by simp)
    · rw [if_neg htr] at hreg
      simp only [RegResult.registered.injEq] at hreg
      obtain ⟨hps, hj⟩ := hreg
      subst hj
      subst hps
      exact ⟨Option.not_isSome_iff_eq_none.mp hfind,
             Option.not_isSome_iff_eq_none.mp htr, rfl, rfl⟩

/-- Inversion of a successful `Unregister`: the dropped session was
registered under the id, and session and tracker were removed. -/
theorem Unregister_some_inv (ps : PeerSet) (id : String) (ps' : PeerSet)
    (dropped : PeerConnection) (h : ps.Unregister id = some (ps', dropped)) :
    (id, dropped) ∈ ps.peers ∧
    ps' = { peers := ps.peers.filter (fun r => r.1 != id),
            rates := Untrack ps.rates id } := by
  rw [PeerSet.Unregister] at h
  cases hfind : ps.peers.find? (fun q => q.1 == id) with
  | none => rw [hfind] at h; exact absurd h (by simp)
  | some q =>
      rw [hfind] at h
      simp only [Option.some_inj, Prod.mk.injEq] at h
      have hqmem := List.mem_of_find?_eq_some hfind
      have hqkey : q.1 = id := by simpa using List.find?_some hfind
      refine ⟨?_, h.1.symm⟩
      have : q = (id, dropped) := by
        rw [Prod.ext_iff]
        exact ⟨hqkey, h.2⟩
      exact this ▸ hqmem

/-- Decision helper for Fetch outcomes: whether the outcome is the loud
abort. -/
def FetchOutcome.isPanic : FetchOutcome → Bool
  | .panicked _ => true
  | _ => false

/-! ### Claims -/

/-- C1: for every peer session and every data-kind (with the version
contract of that kind met, so the panic branch preceding the busy check is
out of the way — see C9), a Fetch while the kind flag is busy returns the
already-fetching error with the session state (start timestamps, rate
tracker, every flag, lacking set) unchanged and no request forwarded to
the remote peer. -/
theorem C1_fetch_while_busy_noop :
    (∀ (p : PeerConnection) (now : Int) (origin count : Nat), 62 ≤ p.version →
        p.headerIdle = true →
        p.FetchHeaders now origin count = (.alreadyFetching, p, none)) ∧
    (∀ (p : PeerConnection) (now : Int) (hs : List Nat), 62 ≤ p.version →
        p.blockIdle = true →
        p.FetchBodies now hs = (.alreadyFetching, p, none)) ∧
    (∀ (p : PeerConnection) (now : Int) (hs : List Nat), 63 ≤ p.version →
        p.receiptIdle = true →
        p.FetchReceipts now hs = (.alreadyFetching, p, none)) ∧
    (∀ (p : PeerConnection) (now : Int) (hs : List Nat), 63 ≤ p.version →
        p.stateIdle = true →
        p.FetchNodeData now hs = (.alreadyFetching, p, none)) := by
  refine ⟨?_, ?_, ?_, ?_⟩
  · intro p now origin count hv hb
    simp [PeerConnection.FetchHeaders, Nat.not_lt.mpr hv, hb]
  · intro p now hs hv hb
    simp [PeerConnection.FetchBodies, Nat.not_lt.mpr hv, hb]
  · intro p now hs hv hb
    simp [PeerConnection.FetchReceipts, Nat.not_lt.mpr hv, hb]
  · intro p now hs hv hb
    simp [PeerConnection.FetchNodeData, Nat.not_lt.mpr hv, hb]

/-- Session used by the witness of C1: all four kinds busy, version 64. -/
def busyPeer : PeerConnection :=
  { id := "w1", headerIdle := true, blockIdle := true, receiptIdle := true,
    stateIdle := true, version := 64 }

/-- C1 witness: the busy-header fetch at a concrete session. -/
theorem C1_witness :
    (62 ≤ busyPeer.version ∧ busyPeer.headerIdle = true) ∧
    busyPeer.FetchHeaders 7 1 10 = (.alreadyFetching, busyPeer, none) :=
  ⟨⟨by decide, by decide⟩,
   C1_fetch_while_busy_noop.1 busyPeer 7 1 10 (by decide) (by decide)⟩

/-- C9: Fetch aborts loudly (the panic branch) exactly when the negotiated
version is below the minimum of the kind (62 for headers and bodies, 63
for receipts and state-data); when the version meets the floor, the
outcome is either success or the already-fetching error. -/
theorem C9_version_gate :
    (∀ (p : PeerConnection) (now : Int) (origin count : Nat),
       (((p.FetchHeaders now origin count).1.isPanic = true) ↔ p.version < 62) ∧
       (62 ≤ p.version → (p.FetchHeaders now origin count).1 = .ok ∨
          (p.FetchHeaders now origin count).1 = .alreadyFetching)) ∧
    (∀ (p : PeerConnection) (now : Int) (hs : List Nat),
       (((p.FetchBodies now hs).1.isPanic = true) ↔ p.version < 62) ∧
       (62 ≤ p.version → (p.FetchBodies now hs).1 = .ok ∨
          (p.FetchBodies now hs).1 = .alreadyFetching)) ∧
    (∀ (p : PeerConnection) (now : Int) (hs : List Nat),
       (((p.FetchReceipts now hs).1.isPanic = true) ↔ p.version < 63) ∧
       (63 ≤ p.version → (p.FetchReceipts now hs).1 = .ok ∨
          (p.FetchReceipts now hs).1 = .alreadyFetching)) ∧
    (∀ (p : PeerConnection) (now : Int) (hs : List Nat),
       (((p.FetchNodeData now hs).1.isPanic = true) ↔ p.version < 63) ∧
       (63 ≤ p.version → (p.FetchNodeData now hs).1 = .ok ∨
          (p.FetchNodeData now hs).1 = .alreadyFetching)) := by
  refine ⟨?_, ?_, ?_, ?_⟩
  · intro p now origin count
    by_cases hv : p.version < 62
    · simp [PeerConnection.FetchHeaders, hv, FetchOutcome.isPanic]
    · by_cases hb : p.headerIdle <;>
        simp [PeerConnection.FetchHeaders, hv, hb, FetchOutcome.isPanic]
  · intro p now hs
    by_cases hv : p.version < 62
    · simp [PeerConnection.FetchBodies, hv, FetchOutcome.isPanic]
    · by_cases hb : p.blockIdle <;>
        simp [PeerConnection.FetchBodies, hv, hb, FetchOutcome.isPanic]
  · intro p now hs
    by_cases hv : p.version < 63
    · simp [PeerConnection.FetchReceipts, hv, FetchOutcome.isPanic]
    · by_cases hb : p.receiptIdle <;>
        simp [PeerConnection.FetchReceipts, hv, hb, FetchOutcome.isPanic]
  · intro p now hs
    by_cases hv : p.version < 63
    · simp [PeerConnection.FetchNodeData, hv, FetchOutcome.isPanic]
    · by_cases hb : p.stateIdle <;>
        simp [PeerConnection.FetchNodeData, hv, hb, FetchOutcome.isPanic]

/-- Session used by the witness of C9: version 61, below every floor it is
probed at. -/
def lowPeer : PeerConnection := { id := "w9", version := 61 }

/-- C9 witness: at version 61 the header fetch panics, and at version 64
(the C1 witness session) it does not panic but may return the
already-fetching error. -/
theorem C9_witness :
    (lowPeer.FetchHeaders 0 0 1).1.isPanic = true ∧
    (62 ≤ busyPeer.version ∧
      ((busyPeer.FetchHeaders 0 0 1).1 = .ok ∨
       (busyPeer.FetchHeaders 0 0 1).1 = .alreadyFetching)) :=
  ⟨(C9_version_gate.1 lowPeer 0 0 1).1.mpr (by decide),
   ⟨by decide, (C9_version_gate.1 busyPeer 0 0 1).2 (by decide)⟩⟩

/-- C7: after `Reset` all four flags read idle — so no Fetch of any kind
can return the already-fetching error — and the lacking set is empty, so
`Lacks` is false on every hash; the registry `Reset` applies this to every
registered session. -/
theorem C7_reset_clears :
    (∀ p : PeerConnection,
       p.Reset.headerIdle = false ∧ p.Reset.blockIdle = false ∧
       p.Reset.receiptIdle = false ∧ p.Reset.stateIdle = false ∧
       (∀ h : Nat, p.Reset.Lacks h = false) ∧
       (∀ (now : Int) (origin count : Nat),
          (p.Reset.FetchHeaders now origin count).1 ≠ .alreadyFetching) ∧
       (∀ (now : Int) (hs : List Nat),
          (p.Reset.FetchBodies now hs).1 ≠ .alreadyFetching) ∧
       (∀ (now : Int) (hs : List Nat),
          (p.Reset.FetchReceipts now hs).1 ≠ .alreadyFetching) ∧
       (∀ (now : Int) (hs : List Nat),
          (p.Reset.FetchNodeData now hs).1 ≠ .alreadyFetching)) ∧
    (∀ (ps : PeerSet) (q : String × PeerConnection), q ∈ ps.ResetAll.peers →
       q.2.headerIdle = false ∧ q.2.blockIdle = false ∧ q.2.receiptIdle = false ∧
       q.2.stateIdle = false ∧ q.2.lacking = []) := by
  constructor
  · intro p
    refine ⟨rfl, rfl, rfl, rfl, ?_, ?_, ?_, ?_, ?_⟩
    · intro h
      simp [PeerConnection.Lacks, PeerConnection.Reset]
    · intro now origin count
      by_cases hv : p.version < 62 <;>
        simp [PeerConnection.FetchHeaders, PeerConnection.Reset, hv]
    · intro now hs
      by_cases hv : p.version < 62 <;>
        simp [PeerConnection.FetchBodies, PeerConnection.Reset, hv]
    · intro now hs
      by_cases hv : p.version < 63 <;>
        simp [PeerConnection.FetchReceipts, PeerConnection.Reset, hv]
    · intro now hs
      by_cases hv : p.version < 63 <;>
        simp [PeerConnection.FetchNodeData, PeerConnection.Reset, hv]
  · intro ps q hq
    simp only [PeerSet.ResetAll, List.mem_map] at hq
    obtain ⟨r, _, rfl⟩ := hq
    exact ⟨rfl, rfl, rfl, rfl, rfl⟩

/-- Session used by the witness of C7: busy flags and a populated lacking
set before the reset. -/
def dirtyPeer : PeerConnection :=
  { id := "w7", headerIdle := true, blockIdle := true, receiptIdle := true,
    stateIdle := true, lacking := [5, 9], version := 63 }

/-- Registry used by the witness of C7. -/
def dirtySet : PeerSet := { peers := [("w7", dirtyPeer)] }

/-- C7 witness: the reset of a concrete dirtied session and registry. -/
theorem C7_witness :
    dirtyPeer.Reset.Lacks 5 = false ∧
    (dirtyPeer.Reset.FetchHeaders 3 0 8).1 ≠ .alreadyFetching ∧
    (("w7", dirtyPeer.Reset) ∈ dirtySet.ResetAll.peers ∧
      dirtyPeer.Reset.lacking = []) :=
  ⟨(C7_reset_clears.1 dirtyPeer).2.2.2.2.1 5,
   (C7_reset_clears.1 dirtyPeer).2.2.2.2.2.1 3 0 8,
   ⟨by decide,
    (C7_reset_clears.2 dirtySet ("w7", dirtyPeer.Reset) (by decide)).2.2.2.2⟩⟩

/-- C8: `SetIdle` of each kind prepends the observation
(kind, deliveryTime - start timestamp, delivered) to the rate-tracker
history and clears the kind flag; consequently (last conjunct, the
end-to-end sequence of the claim) a first header Fetch succeeds, a second
concurrent one fails already-fetching, and after `SetHeadersIdle` —
which records the elapsed time against the start stamp of the first
fetch — a third Fetch succeeds again. -/
theorem C8_setidle_records_and_frees :
    (∀ (p : PeerConnection) (d : Nat) (t : Int),
       (p.SetHeadersIdle d t).rates.updates
           = (BlockHeadersMsg, t - p.headerStarted, d) :: p.rates.updates ∧
       (p.SetHeadersIdle d t).headerIdle = false) ∧
    (∀ (p : PeerConnection) (d : Nat) (t : Int),
       (p.SetBodiesIdle d t).rates.updates
           = (BlockBodiesMsg, t - p.blockStarted, d) :: p.rates.updates ∧
       (p.SetBodiesIdle d t).blockIdle = false) ∧
    (∀ (p : PeerConnection) (d : Nat) (t : Int),
       (p.SetReceiptsIdle d t).rates.updates
           = (ReceiptsMsg, t - p.receiptStarted, d) :: p.rates.updates ∧
       (p.SetReceiptsIdle d t).receiptIdle = false) ∧
    (∀ (p : PeerConnection) (d : Nat) (t : Int),
       (p.SetNodeDataIdle d t).rates.updates
           = (NodeDataMsg, t - p.stateStarted, d) :: p.rates.updates ∧
       (p.SetNodeDataIdle d t).stateIdle = false) ∧
    (∀ (p : PeerConnection) (t0 t1 t2 : Int) (origin count d : Nat),
       62 ≤ p.version → p.headerIdle = false →
       (p.FetchHeaders t0 origin count).1 = .ok ∧
       ((p.FetchHeaders t0 origin count).2.1.FetchHeaders t1 origin count).1
           = .alreadyFetching ∧
       ((p.FetchHeaders t0 origin count).2.1.SetHeadersIdle d t1).rates.updates
           = (BlockHeadersMsg, t1 - t0, d) :: p.rates.updates ∧
       ((((p.FetchHeaders t0 origin count).2.1.SetHeadersIdle d t1).FetchHeaders
            t2 origin count).1) = .ok) := by
  refine ⟨?_, ?_, ?_, ?_, ?_⟩
  · intro p d t
    exact ⟨rfl, rfl⟩
  · intro p d t
    exact ⟨rfl, rfl⟩
  · intro p d t
    exact ⟨rfl, rfl⟩
  · intro p d t
    exact ⟨rfl, rfl⟩
  · intro p t0 t1 t2 origin count d hv hidle
    have hnlt : ¬ p.version < 62 := Nat.not_lt.mpr hv
    refine ⟨?_, ?_, ?_, ?_⟩
    · simp [PeerConnection.FetchHeaders, hnlt, hidle]
    · simp [PeerConnection.FetchHeaders, hnlt, hidle]
    · simp [PeerConnection.FetchHeaders, PeerConnection.SetHeadersIdle,
            Tracker.Update, hnlt, hidle]
    · simp [PeerConnection.FetchHeaders, PeerConnection.SetHeadersIdle,
            hnlt, hidle]

/-- Session used by the witness of C8: header-idle, version 64. -/
def freshPeer : PeerConnection := { id := "w8", version := 64 }

/-- C8 witness: the end-to-end fetch / fetch / set-idle / fetch sequence at
a concrete session. -/
theorem C8_witness :
    (62 ≤ freshPeer.version ∧ freshPeer.headerIdle = false) ∧
    ((freshPeer.FetchHeaders 100 0 50).1 = .ok ∧
     ((freshPeer.FetchHeaders 100 0 50).2.1.FetchHeaders 150 0 50).1
         = .alreadyFetching ∧
     ((freshPeer.FetchHeaders 100 0 50).2.1.SetHeadersIdle 50 160).rates.updates
         = (BlockHeadersMsg, 60, 50) :: freshPeer.rates.updates ∧
     ((((freshPeer.FetchHeaders 100 0 50).2.1.SetHeadersIdle 50 160).FetchHeaders
          200 0 50).1) = .ok) :=
  ⟨⟨by decide, by decide⟩,
   C8_setidle_records_and_frees.2.2.2.2 freshPeer 100 160 200 0 50 50
     (by decide) (by decide)⟩

/-- C5: the lacking set stays within `maxLackingHashes` after any single
`MarkLacking` call and hence after any sequence of them; and a
`MarkLacking` of a fresh hash against a full set keeps exactly
`maxLackingHashes` entries, holds the new hash, evicts exactly one old
entry and introduces nothing else. -/
theorem C5_lacking_bounded :
    (∀ (p : PeerConnection) (h : Nat),
        (p.MarkLacking h).lacking.length ≤ maxLackingHashes) ∧
    (∀ (p : PeerConnection) (hs : List Nat),
        p.lacking.length ≤ maxLackingHashes →
        (hs.foldl PeerConnection.MarkLacking p).lacking.length ≤ maxLackingHashes) ∧
    (∀ (p : PeerConnection) (h : Nat),
        p.lacking.length = maxLackingHashes → p.lacking.Nodup → h ∉ p.lacking →
        (p.MarkLacking h).lacking.length = maxLackingHashes ∧
        (p.MarkLacking h).Lacks h = true ∧
        (p.lacking.filter
            (fun x => !((p.MarkLacking h).lacking.contains x))).length = 1 ∧
        (∀ x ∈ (p.MarkLacking h).lacking, x = h ∨ x ∈ p.lacking)) := by
  refine ⟨markLacking_length_le, ?_, ?_⟩
  · intro p hs
    induction hs generalizing p with
    | nil => intro hlen; exact hlen
    | cons a t ih =>
        intro _
        exact ih (p.MarkLacking a) (markLacking_length_le p a)
  · intro p h hlen hnd hnotin
    cases hl : p.lacking with
    | nil =>
        exfalso
        rw [hl] at hlen
        simp [maxLackingHashes] at hlen
    | cons a t =>
        rw [hl] at hlen hnd hnotin
        have htlen : t.length = maxLackingHashes - 1 := by
          simp only [List.length_cons, maxLackingHashes] at hlen ⊢
          omega
        have hdrop : dropOneWhileFull (a :: t) = t := by
          rw [dropOneWhileFull, if_pos (le_of_eq hlen.symm),
              dropOneWhileFull_eq_of_lt t
                (by simp only [maxLackingHashes] at htlen ⊢; omega)]
        have hmark : (p.MarkLacking h).lacking = h :: t := by
          simp only [PeerConnection.MarkLacking, hl, hdrop]
          rw [if_neg (fun hc => hnotin (List.mem_cons_of_mem a hc))]
        rw [List.nodup_cons] at hnd
        have hha : h ≠ a := fun hc => hnotin (hc ▸ List.mem_cons_self a t)
        refine ⟨?_, ?_, ?_, ?_⟩
        · rw [hmark]
          simp only [List.length_cons, maxLackingHashes] at htlen ⊢
          omega
        · simp [PeerConnection.Lacks, hmark]
        · simp only [hmark]
          have hpa : (!((h :: t).contains a)) = true := by
            simp only [List.elem_eq_mem, List.mem_cons, Bool.not_eq_true',
              decide_eq_false_iff_not]
            intro hc
            rcases hc with hc | hc
            · exact hha hc.symm
            · exact hnd.1 hc
          rw [List.filter_cons_of_pos (p := fun x => !((h :: t).contains x))
                (l := t) hpa,
              List.filter_eq_nil_iff.mpr, List.length_cons, List.length_nil]
          intro x hx
          simp [List.elem_eq_mem, List.mem_cons_of_mem h hx]
        · intro x hx
          rw [hmark] at hx
          rcases List.mem_cons.mp hx with hx | hx
          · exact Or.inl hx
          · exact Or.inr (hl ▸ List.mem_cons_of_mem a hx)

/-- Session used by the witness of C5: a full lacking set of 4096 distinct
hashes. -/
def fullPeer : PeerConnection :=
  { id := "w5", lacking := List.range maxLackingHashes, version := 64 }

/-- C5 witness: marking the fresh hash 5000 against the full set keeps
4096 entries, holds 5000 and evicts exactly one old entry. -/
theorem C5_witness :
    (fullPeer.lacking.length = maxLackingHashes ∧ fullPeer.lacking.Nodup ∧
      (5000 : Nat) ∉ fullPeer.lacking) ∧
    ((fullPeer.MarkLacking 5000).lacking.length = maxLackingHashes ∧
     (fullPeer.MarkLacking 5000).Lacks 5000 = true ∧
     (fullPeer.lacking.filter
         (fun x => !((fullPeer.MarkLacking 5000).lacking.contains x))).length = 1 ∧
     (∀ x ∈ (fullPeer.MarkLacking 5000).lacking,
        x = 5000 ∨ x ∈ fullPeer.lacking)) := by
  have h1 : fullPeer.lacking.length = maxLackingHashes := by
    simp [fullPeer]
  have h2 : fullPeer.lacking.Nodup := by
    simp only [fullPeer]
    exact List.nodup_range maxLackingHashes
  have h3 : (5000 : Nat) ∉ fullPeer.lacking := by
    simp [fullPeer, maxLackingHashes]
  exact ⟨⟨h1, h2, h3⟩, C5_lacking_bounded.2.2 fullPeer 5000 h1 h2 h3⟩

/-- C10: looking up an unregistered id returns the absent value (no error,
no panic — the lookup is a pure read of the registry, which it leaves
unchanged); with duplicate-free keys the lookup returns exactly the
registered entries; a successful Register makes the session visible under
its id and a successful Unregister removes it, neither affecting the
lookup of any other id — so lookup succeeds exactly for ids registered and
not since unregistered. -/
theorem C10_lookup :
    (∀ (ps : PeerSet) (id : String),
        ps.Peer id = none ↔ id ∉ ps.peers.map Prod.fst) ∧
    (∀ (ps : PeerSet) (id : String) (p : PeerConnection),
        (ps.peers.map Prod.fst).Nodup →
        (ps.Peer id = some p ↔ (id, p) ∈ ps.peers)) ∧
    (∀ (ps ps' : PeerSet) (p joined : PeerConnection),
        ps.Register p = .registered ps' joined → ps'.Peer p.id = some joined) ∧
    (∀ (ps ps' : PeerSet) (id : String) (dropped : PeerConnection),
        ps.Unregister id = some (ps', dropped) → ps'.Peer id = none) ∧
    (∀ (ps ps' : PeerSet) (p joined : PeerConnection) (idq : String),
        ps.Register p = .registered ps' joined → idq ≠ p.id →
        ps'.Peer idq = ps.Peer idq) ∧
    (∀ (ps ps' : PeerSet) (id idq : String) (dropped : PeerConnection),
        ps.Unregister id = some (ps', dropped) → idq ≠ id →
        ps'.Peer idq = ps.Peer idq) := by
  refine ⟨?_, ?_, ?_, ?_, ?_, ?_⟩
  · intro ps id
    rw [PeerSet.Peer, Option.map_eq_none']
    constructor
    · intro hnone hmem
      have hs := (find?_isSome_iff_mem_keys ps.peers id).mpr hmem
      rw [hnone] at hs
      simp at hs
    · intro hmem
      exact Option.not_isSome_iff_eq_none.mp
        (fun hs => hmem ((find?_isSome_iff_mem_keys ps.peers id).mp hs))
  · intro ps id p hnd
    rw [PeerSet.Peer]
    constructor
    · intro hsome
      rw [Option.map_eq_some'] at hsome
      obtain ⟨q, hq, hq2⟩ := hsome
      have hk : q.1 = id := by simpa using List.find?_some hq
      have hqe : q = (id, p) := Prod.ext_iff.mpr ⟨hk, hq2⟩
      exact hqe ▸ List.mem_of_find?_eq_some hq
    · intro hmem
      rw [(find?_eq_some_iff_mem ps.peers hnd id p).mpr hmem]
      rfl
  · intro ps ps' p joined hreg
    obtain ⟨hfp, _, _, hps⟩ := Register_registered_inv ps p ps' joined hreg
    subst hps
    rw [PeerSet.Peer]
    simp only []
    rw [find?_append_of_none _ _ _ hfp,
        List.find?_cons_of_pos _ (by simp)]
    rfl
  · intro ps ps' id dropped hu
    obtain ⟨_, hps⟩ := Unregister_some_inv ps id ps' dropped hu
    subst hps
    rw [PeerSet.Peer, Option.map_eq_none', List.find?_eq_none]
    intro q hq
    have hb := List.of_mem_filter hq
    simp only [bne_iff_ne] at hb
    simp [hb]
  · intro ps ps' p joined idq hreg hne
    obtain ⟨hfp, _, _, hps⟩ := Register_registered_inv ps p ps' joined hreg
    subst hps
    rw [PeerSet.Peer, PeerSet.Peer]
    simp only []
    cases hfl : ps.peers.find? (fun q => q.1 == idq) with
    | some q => rw [find?_append_some _ _ _ _ hfl]
    | none =>
        rw [find?_append_of_none _ _ _ hfl,
            List.find?_cons_of_neg _ (by simp [Ne.symm hne])]
        rfl
  · intro ps ps' id idq dropped hu hne
    obtain ⟨_, hps⟩ := Unregister_some_inv ps id ps' dropped hu
    subst hps
    rw [PeerSet.Peer, PeerSet.Peer]
    simp only []
    rw [find?_filter_of_imp]
    intro x hx
    simp only [beq_iff_eq] at hx
    simp [bne_iff_ne, hx, hne]

/-- Sessions and registries used by the witness of C10. -/
def pa10 : PeerConnection := { id := "a", version := 64 }

/-- Second session of the C10 witness registry. -/
def pb10 : PeerConnection := { id := "b", version := 64 }

/-- Registry of the C10 witness. -/
def set10 : PeerSet :=
  { peers := [("a", pa10), ("b", pb10)], rates := [("a", {}), ("b", {})] }

/-- C10 registry after the witnessed Unregister. -/
def set10c : PeerSet := { peers := [("b", pb10)], rates := [("b", {})] }

/-- C10 witness: concrete lookups hit, miss, and track an Unregister. -/
theorem C10_witness :
    ((set10.peers.map Prod.fst).Nodup ∧
      (set10.Peer "a" = some pa10 ↔ ("a", pa10) ∈ set10.peers)) ∧
    set10.Peer "zz" = none ∧
    (set10.Unregister "a" = some (set10c, pa10) ∧ set10c.Peer "a" = none ∧
      set10c.Peer "b" = set10.Peer "b") := by
  have hu : set10.Unregister "a" = some (set10c, pa10) := by decide
  exact ⟨⟨by decide, C10_lookup.2.1 set10 "a" pa10 (by decide)⟩,
         (C10_lookup.1 set10 "zz").mpr (by decide),
         hu, C10_lookup.2.2.2.1 set10 set10c "a" pa10 hu,
         C10_lookup.2.2.2.2.2 set10 set10c "a" "b" pa10 hu (by decide)⟩

/-- C6: Register fails with the already-registered error exactly when the
id is present (never with the tracker-registration error, given the
invariant that sessions and trackers share their id space), mutating
nothing on failure (the model returns no successor state on the error
path, mirroring the early return of the Go code); on success it seeds and
inserts the tracker of the session and appends the session.  Unregister
fails exactly when the id is absent, and on success removes both the
session and its tracker. -/
theorem C6_register_unregister :
    (∀ (ps : PeerSet) (p : PeerConnection),
       ps.rates.map Prod.fst = ps.peers.map Prod.fst →
       ((ps.Register p = .alreadyRegistered ↔ p.id ∈ ps.peers.map Prod.fst) ∧
        (∀ p', ps.Register p ≠ .trackFailed p') ∧
        (p.id ∉ ps.peers.map Prod.fst →
           ∃ ps' joined, ps.Register p = .registered ps' joined ∧
             joined = { p with
               rates := NewTracker (MeanCapacities ps.rates) (MedianRoundTrip ps.rates) } ∧
             ps'.peers = ps.peers ++ [(p.id, joined)] ∧
             ps'.rates = ps.rates ++ [(p.id, joined.rates)] ∧
             ps'.rates.map Prod.fst = ps'.peers.map Prod.fst))) ∧
    (∀ (ps : PeerSet) (id : String),
       (ps.Unregister id = none ↔ id ∉ ps.peers.map Prod.fst) ∧
       (∀ ps' dropped, ps.Unregister id = some (ps', dropped) →
          (id, dropped) ∈ ps.peers ∧
          ps'.peers = ps.peers.filter (fun r => r.1 != id) ∧
          ps'.rates = Untrack ps.rates id)) := by
  constructor
  · intro ps p hinv
    by_cases hmem : p.id ∈ ps.peers.map Prod.fst
    · have hso : (ps.peers.find? (fun q => q.1 == p.id)).isSome :=
        (find?_isSome_iff_mem_keys ps.peers p.id).mpr hmem
      have hreg : ps.Register p = .alreadyRegistered := by
        rw [PeerSet.Register, if_pos hso]
      refine ⟨⟨fun _ => hmem, fun _ => hreg⟩, ?_, ?_⟩
      · intro p' hc
        rw [hreg] at hc
        exact absurd hc (by simp)
      · intro hab
        exact absurd hmem hab
    · have hns : ¬ (ps.peers.find? (fun q => q.1 == p.id)).isSome :=
        fun hs => hmem ((find?_isSome_iff_mem_keys _ _).mp hs)
      have hrn : ps.rates.find? (fun q => q.1 == p.id) = none := by
        apply Option.not_isSome_iff_eq_none.mp
        intro hs
        have h2 := (find?_isSome_iff_mem_keys ps.rates p.id).mp hs
        rw [hinv] at h2
        exact hmem h2
      have hreg : ps.Register p = .registered
          { peers := ps.peers ++ [(p.id, { p with rates := NewTracker (MeanCapacities ps.rates) (MedianRoundTrip ps.rates) })],
            rates := ps.rates ++ [(p.id, NewTracker (MeanCapacities ps.rates) (MedianRoundTrip ps.rates))] }
          { p with rates := NewTracker (MeanCapacities ps.rates) (MedianRoundTrip ps.rates) } := by
        rw [PeerSet.Register, if_neg hns]
        simp [Track, hrn]
      refine ⟨⟨?_, ?_⟩, ?_, ?_⟩
      · intro hc
        rw [hreg] at hc
        exact absurd hc (by simp)
      · intro hc
        exact absurd hc hmem
      · intro p' hc
        rw [hreg] at hc
        exact absurd hc (by simp)
      · intro _
        exact ⟨_, _, hreg, rfl, rfl, rfl, by simp [hinv]⟩
  · intro ps id
    constructor
    · cases hf : ps.peers.find? (fun q => q.1 == id) with
      | none =>
          have hun : ps.Unregister id = none := by
            rw [PeerSet.Unregister, hf]
          have hnm : id ∉ ps.peers.map Prod.fst := by
            intro hm
            have hs := (find?_isSome_iff_mem_keys _ _).mpr hm
            rw [hf] at hs
            simp at hs
          rw [hun]
          exact ⟨fun _ => hnm, fun _ => rfl⟩
      | some q =>
          have hun : ps.Unregister id =
              some ({ peers := ps.peers.filter (fun r => r.1 != id),
                      rates := Untrack ps.rates id }, q.2) := by
            rw [PeerSet.Unregister, hf]
          have hm : id ∈ ps.peers.map Prod.fst :=
            (find?_isSome_iff_mem_keys _ _).mp (by rw [hf]; rfl)
          rw [hun]
          exact ⟨fun hc => absurd hc (by simp), fun hc => absurd hm hc⟩
    · intro ps' dropped hu
      obtain ⟨hmem, hps⟩ := Unregister_some_inv ps id ps' dropped hu
      subst hps
      exact ⟨hmem, rfl, rfl⟩

/-- Session of the C6 witness. -/
def p6 : PeerConnection := { id := "w6", version := 64 }

/-- Registry of the C6 witness, holding `p6` and its tracker. -/
def set6 : PeerSet := { peers := [("w6", p6)], rates := [("w6", {})] }

/-- C6 witness: the duplicate registration is rejected, a fresh
registration succeeds, unregistering an unknown id fails, and
unregistering `p6` removes session and tracker. -/
theorem C6_witness :
    (set6.rates.map Prod.fst = set6.peers.map Prod.fst ∧
     set6.Register p6 = .alreadyRegistered) ∧
    (∃ ps' joined, newPeerSet.Register p6 = .registered ps' joined) ∧
    set6.Unregister "zz" = none ∧
    (set6.Unregister "w6" = some ({ peers := [], rates := [] }, p6) ∧
     ("w6", p6) ∈ set6.peers ∧
     ({ peers := [], rates := [] } : PeerSet).peers
         = set6.peers.filter (fun r => r.1 != "w6") ∧
     ({ peers := [], rates := [] } : PeerSet).rates = Untrack set6.rates "w6") := by
  have hinv : set6.rates.map Prod.fst = set6.peers.map Prod.fst := by decide
  have hu : set6.Unregister "w6" = some ({ peers := [], rates := [] }, p6) := by
    decide
  refine ⟨⟨hinv, (C6_register_unregister.1 set6 p6 hinv).1.mpr (by decide)⟩,
          ?_,
          (C6_register_unregister.2 set6 "zz").1.mpr (by decide),
          hu, (C6_register_unregister.2 set6 "w6").2 _ _ hu⟩
  obtain ⟨ps', joined, hreg, _⟩ :=
    (C6_register_unregister.1 newPeerSet p6 rfl).2.2 (by decide)
  exact ⟨ps', joined, hreg⟩

/-- C3: every permissible result of the idle-peer query consists of exactly
the registered sessions inside the version bounds whose kind flag is idle
(as a permutation of, hence with the same members as, the filtered
traversal), and the returned total counts every registered session inside
the bounds, idle or not. -/
theorem C3_idle_filter_and_total :
    ∀ (ps : PeerSet) (minP maxP : Nat) (chk : PeerConnection → Bool)
      (cap : PeerConnection → Int) (out : List PeerConnection) (total : Nat),
      IdlePeersSpec ps minP maxP chk cap out total →
      out.Perm ((ps.AllPeers).filter
          (fun p => decide (minP ≤ p.version) && decide (p.version ≤ maxP) && chk p)) ∧
      (∀ q : PeerConnection, q ∈ out ↔ q ∈ (ps.AllPeers).filter
          (fun p => decide (minP ≤ p.version) && decide (p.version ≤ maxP) && chk p)) ∧
      total = ((ps.AllPeers).filter
          (fun p => decide (minP ≤ p.version) && decide (p.version ≤ maxP))).length := by
  intro ps minP maxP chk cap out total hspec
  obtain ⟨sp, ⟨hperm, _⟩, hout, htot⟩ := hspec
  rw [idlePeersScan_eq] at hperm htot
  have hperm2 : out.Perm ((ps.AllPeers).filter
      (fun p => decide (minP ≤ p.version) && decide (p.version ≤ maxP) && chk p)) := by
    rw [hout]
    have hm := (hperm.map (fun q : PeerConnection × Int => q.1)).symm
    rw [List.map_map] at hm
    have hcomp : ((fun q : PeerConnection × Int => q.1) ∘
        (fun p : PeerConnection => (p, cap p))) = id := rfl
    rw [hcomp, List.map_id] at hm
    exact hm
  exact ⟨hperm2, fun q => hperm2.mem_iff, htot⟩

/-- Sessions of the C3 witness: versions 61, 63 and 65, all idle. -/
def p61 : PeerConnection := { id := "a3", version := 61 }

/-- Version-63 session of the C3 witness. -/
def p63 : PeerConnection := { id := "b3", version := 63 }

/-- Version-65 session of the C3 witness. -/
def p65 : PeerConnection := { id := "c3", version := 65 }

/-- Registry of the C3 witness. -/
def set3 : PeerSet := { peers := [("a3", p61), ("b3", p63), ("c3", p65)] }

/-- C3 witness: the header query against versions 61, 63, 65 with bounds
63..65 may return only the 63 and 65 sessions, and the total is 2. -/
theorem C3_witness :
    HeaderIdlePeersSpec set3 [p63, p65] 2 ∧
    ([p63, p65].Perm ((set3.AllPeers).filter
        (fun p => decide (63 ≤ p.version) && decide (p.version ≤ 65) && headerIdleCheck p)) ∧
     (∀ q : PeerConnection, q ∈ [p63, p65] ↔ q ∈ (set3.AllPeers).filter
        (fun p => decide (63 ≤ p.version) && decide (p.version ≤ 65) && headerIdleCheck p)) ∧
     2 = ((set3.AllPeers).filter
        (fun p => decide (63 ≤ p.version) && decide (p.version ≤ 65))).length) := by
  have hspec : HeaderIdlePeersSpec set3 [p63, p65] 2 :=
    ⟨[(p63, 0), (p65, 0)], ⟨by decide, by decide⟩, by decide, by decide⟩
  exact ⟨hspec, C3_idle_filter_and_total set3 63 65 headerIdleCheck
    headerThroughput [p63, p65] 2 hspec⟩

/-- C4 (amended): every permissible result of the idle-peer query is
weakly descending in the capacity estimates (ties adjacent, no secondary
ordering key), and with pairwise-distinct candidate capacities — as in the
[10, 50, 30] example — the result is uniquely the descending arrangement.
The relative order of equal-capacity candidates is left unspecified by the
embedded sort contract (see the counterexample). -/
theorem C4_sorted_descending :
    ∀ (ps : PeerSet) (minP maxP : Nat) (chk : PeerConnection → Bool)
      (cap : PeerConnection → Int) (out : List PeerConnection) (total : Nat),
      IdlePeersSpec ps minP maxP chk cap out total →
      out.Sorted (fun a b => cap b ≤ cap a) ∧
      (∀ out2 total2, IdlePeersSpec ps minP maxP chk cap out2 total2 →
         ((idlePeersScan ps.peers minP maxP chk cap).1.map
             (fun q => q.2)).Nodup →
         out2 = out) := by
  intro ps minP maxP chk cap out total hspec
  obtain ⟨sp, ⟨hperm, hsort⟩, hout, _⟩ := hspec
  have hsnd : ∀ q ∈ sp, q.2 = cap q.1 := fun q hq =>
    idlePeersScan_snd ps.peers minP maxP chk cap q (hperm.mem_iff.mpr hq)
  constructor
  · rw [hout]
    have hsp : sp.Pairwise (fun a b => cap b.1 ≤ cap a.1) := by
      refine hsort.imp_of_mem ?_
      intro a b ha hb hab
      rw [← hsnd a ha, ← hsnd b hb]
      exact hab
    rw [List.Sorted, List.pairwise_map]
    exact hsp
  · intro out2 total2 hspec2 hnd
    obtain ⟨sp2, ⟨hperm2, hsort2⟩, hout2, _⟩ := hspec2
    have hp12 : sp2.Perm sp := hperm2.symm.trans hperm
    have hnd2 : (sp2.map (fun q : PeerConnection × Int => q.2)).Nodup :=
      ((hperm2.map (fun q : PeerConnection × Int => q.2)).nodup_iff).mp hnd
    have heq := sorted_desc_perm_eq (fun q : PeerConnection × Int => q.2)
      sp2 sp hp12 hsort2 hsort hnd2
    rw [hout, hout2, heq]

/-- First session of the C4 counterexample (equal zero estimates). -/
def pa4 : PeerConnection := { id := "a4", version := 64 }

/-- Second session of the C4 counterexample. -/
def pb4 : PeerConnection := { id := "b4", version := 64 }

/-- Registry of the C4 counterexample: traversal order pa4 then pb4. -/
def set4 : PeerSet := { peers := [("a4", pa4), ("b4", pb4)] }

/-- C4 counterexample: with two idle peers of equal capacity traversed in
the order pa4, pb4, the reversed list [pb4, pa4] is a permissible result
of the embedded sort contract, yet it differs from the claim-side stable
descending sort — so ties are not guaranteed to keep traversal order. -/
theorem C4_counterexample :
    IdlePeersSpec set4 63 65 headerIdleCheck headerThroughput [pb4, pa4] 2 ∧
    [pb4, pa4] ≠ (stableDescSort
        (idlePeersScan set4.peers 63 65 headerIdleCheck headerThroughput).1).map
        (fun q => q.1) ∧
    ¬ (∀ out total,
         IdlePeersSpec set4 63 65 headerIdleCheck headerThroughput out total →
         out = (stableDescSort
             (idlePeersScan set4.peers 63 65 headerIdleCheck
                 headerThroughput).1).map (fun q => q.1)) := by
  have hspec : IdlePeersSpec set4 63 65 headerIdleCheck headerThroughput
      [pb4, pa4] 2 :=
    ⟨[(pb4, 0), (pa4, 0)], ⟨by decide, by decide⟩, by decide, by decide⟩
  refine ⟨hspec, by decide, ?_⟩
  intro hall
  exact absurd (hall [pb4, pa4] 2 hspec) (by decide)

/-- Capacity-10 session of the C4 witness (the spec example). -/
def pc10 : PeerConnection :=
  { id := "x1", rates := { est := [(BlockHeadersMsg, 10)] }, version := 64 }

/-- Capacity-50 session of the C4 witness. -/
def pc50 : PeerConnection :=
  { id := "x2", rates := { est := [(BlockHeadersMsg, 50)] }, version := 64 }

/-- Capacity-30 session of the C4 witness. -/
def pc30 : PeerConnection :=
  { id := "x3", rates := { est := [(BlockHeadersMsg, 30)] }, version := 64 }

/-- Registry of the C4 witness: capacities traverse as [10, 50, 30]. -/
def set4w : PeerSet :=
  { peers := [("x1", pc10), ("x2", pc50), ("x3", pc30)] }

/-- C4 witness: for the capacities [10, 50, 30] the result [50, 30, 10]
order is permissible and weakly descending. -/
theorem C4_witness :
    IdlePeersSpec set4w 63 65 headerIdleCheck headerThroughput
        [pc50, pc30, pc10] 3 ∧
    [pc50, pc30, pc10].Sorted
        (fun a b => headerThroughput b ≤ headerThroughput a) := by
  have hspec : IdlePeersSpec set4w 63 65 headerIdleCheck headerThroughput
      [pc50, pc30, pc10] 3 :=
    ⟨[(pc50, 50), (pc30, 30), (pc10, 10)], ⟨by decide, by decide⟩,
     by decide, by decide⟩
  exact ⟨hspec, (C4_sorted_descending set4w 63 65 headerIdleCheck
    headerThroughput [pc50, pc30, pc10] 3 hspec).1⟩

/-- First session of the C2 registry: receipts estimate 50, node-data
estimate 7. -/
def pa2 : PeerConnection :=
  { id := "ra", rates := { est := [(ReceiptsMsg, 50), (NodeDataMsg, 7)] },
    version := 63 }

/-- Second session of the C2 registry: receipts estimate 10, node-data
estimate 9. -/
def pb2 : PeerConnection :=
  { id := "rb", rates := { est := [(ReceiptsMsg, 10), (NodeDataMsg, 9)] },
    version := 63 }

/-- Registry of the C2 divergence. -/
def set2 : PeerSet := { peers := [("ra", pa2), ("rb", pb2)] }

/-- C2 (divergence exhibited): the throughput closure of the receipts
idle-peer query is the node-data capacity estimate, so at `set2` — where
the receipts estimates rank pa2 (50) over pb2 (10) — every permissible
result ranks pb2 first, because its node-data estimate (9) beats that of
pa2 (7).  The upstream source and the sibling queries use the kind being
scheduled; the receipts query alone reads `NodeDataMsg`. -/
theorem C2_receipt_ranking_uses_nodedata :
    (∀ p : PeerConnection,
        receiptThroughput p = p.rates.Capacity NodeDataMsg oneSecond) ∧
    pa2.rates.Capacity ReceiptsMsg oneSecond = 50 ∧
    pb2.rates.Capacity ReceiptsMsg oneSecond = 10 ∧
    pa2.rates.Capacity NodeDataMsg oneSecond = 7 ∧
    pb2.rates.Capacity NodeDataMsg oneSecond = 9 ∧
    (∀ out total, ReceiptIdlePeersSpec set2 out total → out = [pb2, pa2]) := by
  refine ⟨fun p => rfl, by decide, by decide, by decide, by decide, ?_⟩
  intro out total hspec
  obtain ⟨sp, ⟨hperm, hsort⟩, hout, _⟩ := hspec
  have hscan : (idlePeersScan set2.peers 63 65 receiptIdleCheck
      receiptThroughput).1 = [(pa2, 7), (pb2, 9)] := by decide
  rw [hscan] at hperm
  have hp2 : sp.Perm [(pb2, (9 : Int)), (pa2, 7)] :=
    hperm.symm.trans (by decide)
  have hnd2 : (sp.map (fun q : PeerConnection × Int => q.2)).Nodup :=
    ((hperm.map (fun q : PeerConnection × Int => q.2)).nodup_iff).mp (by decide)
  have heq := sorted_desc_perm_eq (fun q : PeerConnection × Int => q.2)
    sp [(pb2, 9), (pa2, 7)] hp2 hsort (by decide) hnd2
  rw [hout, heq]
  rfl

/-- C2 witness: the divergent ranking is realized at the concrete
registry. -/
theorem C2_witness :
    ReceiptIdlePeersSpec set2 [pb2, pa2] 2 ∧ [pb2, pa2] = [pb2, pa2] := by
  have hspec : ReceiptIdlePeersSpec set2 [pb2, pa2] 2 :=
    ⟨[(pb2, 9), (pa2, 7)], ⟨by decide, by decide⟩, by decide, by decide⟩
  exact ⟨hspec, C2_receipt_ranking_uses_nodedata.2.2.2.2.2 [pb2, pa2] 2 hspec⟩

end CortexDownloader
